import Mathlib

/-!
# gobuildweb: the watch-and-schedule engine of `cmds.go`

A shallow embedding of `ProjectWatcher` (task queue, path filter, event
handling, configuration reload, debounce tick) and the properties of it that
the design document states.

Conventions of the embedding:

* Go strings are Lean `String`s (sequences of Unicode code points); the byte
  level operations used by the source (`HasPrefix`, `HasSuffix`, `path.Clean`,
  `path.Dir`) only look at the ASCII bytes `/` and `.` or compare whole
  substrings, so they are run on the list of code points.
* A Go pointer that may be `nil` is an `Option`; a nil dereference (a runtime
  panic) is the result `none` of the function in which it happens.
* Everything the process observes from outside (file system, `toml` decoder,
  external commands, the fsnotify watcher) is a field of `Env`.
* The effects the process has on the outside (log lines, commands run, batches
  handed to the executor) are recorded, in order, in `Sys.trace`.
-/

namespace Gobuildweb

/-! ## Data model -/

/-- Go `type TaskType int`: only compared with `==` and `>` in `cmds.go`. -/
abbrev TaskType := Int

/-- Modelled from the spec: the constant `kTaskBuildImages` is declared outside
`cmds.go`; the design document fixes the order
`BuildImages < BuildStyles < BuildJavaScripts < BuildBinary < BinaryTest`. -/
def kTaskBuildImages : TaskType := 0

/-- Modelled from the spec: see `kTaskBuildImages`. -/
def kTaskBuildStyles : TaskType := 1

/-- Modelled from the spec: see `kTaskBuildImages`. -/
def kTaskBuildJavaScripts : TaskType := 2

/-- Modelled from the spec: see `kTaskBuildImages`. -/
def kTaskBuildBinary : TaskType := 3

/-- Modelled from the spec: see `kTaskBuildImages`. -/
def kTaskBinaryTest : TaskType := 4

/-- The struct literal `AppShellTask{taskType, module}` of `addTask`. -/
structure AppShellTask where
  taskType : TaskType
  module : String
deriving DecidableEq, Repr

/-- The fields of `ProjectWatcher` that the watch loop reads and writes.
`watcher` is the registration table of the fsnotify watcher. -/
structure ProjectWatcher where
  watcher : List String
  ignoreDirs : List String
  tasks : List AppShellTask
deriving DecidableEq, Repr

/-- `NewProjectWatcher()`. -/
def NewProjectWatcher : ProjectWatcher :=
  { watcher := [], ignoreDirs := [".git", "node_modules", "public"], tasks := [] }

/-! ## The task queue: `addTask` -/

/-- Outcome of the `for i, task := range pw.tasks` loop of `addTask`. -/
inductive ScanResult where
  | found
  | insertAt (i : Nat)
  | notAdded
deriving DecidableEq, Repr

/-- The loop of `addTask`, started at index `i` on the remaining elements. -/
def addTaskScan (taskType : TaskType) (module : String) :
    List AppShellTask → Nat → ScanResult
  | [], _ => ScanResult.notAdded
  | task :: rest, i =>
    if task.taskType = taskType ∧ task.module = module then ScanResult.found
    else if task.taskType > taskType then ScanResult.insertAt i
    else addTaskScan taskType module rest (i + 1)

/-- The queue after `pw.addTask(taskType, module)`. -/
def addTaskQueue (tasks : List AppShellTask) (taskType : TaskType) (module : String) :
    List AppShellTask :=
  match addTaskScan taskType module tasks 0 with
  | ScanResult.found => tasks
  | ScanResult.insertAt i =>
    tasks.take i ++ ([AppShellTask.mk taskType module] ++ tasks.drop i)
  | ScanResult.notAdded => tasks ++ [AppShellTask.mk taskType module]

/-- `pw.addTask(taskType, module)`. -/
def addTask (pw : ProjectWatcher) (taskType : TaskType) (module : String) : ProjectWatcher :=
  { pw with tasks := addTaskQueue pw.tasks taskType module }

/-- A finite sequence of `addTask` calls, applied left to right. -/
def addTasks (pw : ProjectWatcher) (calls : List (TaskType × String)) : ProjectWatcher :=
  calls.foldl (fun p c => addTask p c.1 c.2) pw

/-- The queue is sorted by non-decreasing `taskType`. -/
def SortedByType (q : List AppShellTask) : Prop :=
  q.Pairwise (fun a b => a.taskType ≤ b.taskType)

/-! ## Strings and paths (Go standard library) -/

/-- `strings.HasPrefix(s, p)`. -/
def stringsHasPrefix (s p : String) : Bool := p.data.isPrefixOf s.data

/-- `strings.HasSuffix(s, p)`. -/
def stringsHasSuffix (s p : String) : Bool := p.data.isSuffixOf s.data

/-- `unicode.ToLower` on one code point: ASCII letters are shifted, the other
ASCII code points are kept, and a non-ASCII code point is looked up in the
Unicode case table `tbl`. -/
def lowerRune (tbl : Char → Char) (c : Char) : Char :=
  if c.toNat < 128 then
    (if 'A'.toNat ≤ c.toNat ∧ c.toNat ≤ 'Z'.toNat then Char.ofNat (c.toNat + 32) else c)
  else tbl c

/-- `strings.ToLower(s)`, i.e. `strings.Map(unicode.ToLower, s)`. -/
def stringsToLower (tbl : Char → Char) (s : String) : String :=
  String.mk (s.data.map (lowerRune tbl))

/-- The backtracking loop of `path.Clean` for a `..` element, entered after the
first `out.w--`: `c` is the byte at index `out.w`, the list is `buf[:out.w]`
reversed. `for out.w > dotdot && out.index(out.w) != '/' { out.w-- }`. -/
def cleanBacktrack (dotdot : Nat) : Char → List Char → List Char
  | _, [] => []
  | c, c' :: r =>
    if (c' :: r).length > dotdot ∧ c ≠ '/' then cleanBacktrack dotdot c' r else c' :: r

/-- The main loop `for r < n` of `path.Clean`. `path` is `path[r:]`, `out` is the
written part of the buffer, reversed. Every round consumes at least one byte,
so `fuel` larger than the length of `path` is never used up. -/
def cleanLoop (rooted : Bool) : Nat → List Char → List Char → Nat → List Char
  | 0, _, out, _ => out
  | _ + 1, [], out, _ => out
  | fuel + 1, c :: r, out, dotdot =>
    if c = '/' then
      cleanLoop rooted fuel r out dotdot
    else if c = '.' ∧ (r = [] ∨ r.head? = some '/') then
      cleanLoop rooted fuel r out dotdot
    else if c = '.' ∧ r.head? = some '.' ∧ (r.tail = [] ∨ r.tail.head? = some '/') then
      if out.length > dotdot then
        match out with
        | [] => cleanLoop rooted fuel r.tail out dotdot
        | last :: out' => cleanLoop rooted fuel r.tail (cleanBacktrack dotdot last out') dotdot
      else if ¬ rooted then
        let out1 := if out.length > 0 then '/' :: out else out
        let out2 := '.' :: '.' :: out1
        cleanLoop rooted fuel r.tail out2 out2.length
      else
        cleanLoop rooted fuel r.tail out dotdot
    else
      let out1 :=
        if (rooted ∧ out.length ≠ 1) ∨ (¬ rooted ∧ out.length ≠ 0) then '/' :: out else out
      let elem := (c :: r).takeWhile (fun x => x != '/')
      cleanLoop rooted fuel ((c :: r).dropWhile (fun x => x != '/')) (elem.reverse ++ out1) dotdot

/-- `path.Clean(path)`. -/
def pathClean (path : String) : String :=
  match path.data with
  | [] => "."
  | c :: r =>
    let rooted : Bool := c = '/'
    let out :=
      if rooted then cleanLoop true (r.length + 1) r ['/'] 1
      else cleanLoop false (r.length + 2) (c :: r) [] 0
    if out.length = 0 then "." else String.mk out.reverse

/-- `path.Dir(path)`: `Clean` of everything up to and including the last `/`. -/
def pathDir (path : String) : String :=
  pathClean (String.mk (path.data.reverse.dropWhile (fun x => x != '/')).reverse)

/-! ## Configuration, environment, effects -/

/-- Modelled from the spec: the `[package]` section of `ProjectConfig`, declared
outside `cmds.go`, which reads its `Dependencies` and `OmitTests`. -/
structure PackageConfig where
  Dependencies : List String
  OmitTests : List String
deriving DecidableEq, Repr

/-- Modelled from the spec: the `[assets]` section of `ProjectConfig`, declared
outside `cmds.go`, which reads its `Dependencies`. -/
structure AssetsConfig where
  Dependencies : List String
deriving DecidableEq, Repr

/-- Modelled from the spec: the three fields of `rootConfig` that `cmds.go`
reads and assigns. `Package` and `Assets` are compared with `nil`; the content
of `Distribution` is only copied and is left uninterpreted. -/
structure ProjectConfig where
  Package : Option PackageConfig
  Assets : Option AssetsConfig
  Distribution : Option (List String)
deriving DecidableEq, Repr

/-- An effect of the process on the outside, as recorded in the trace. -/
inductive Effect where
  | log (level : String) (format : String)
  | println
  | run (cmd : String) (args : List String)
  | executeTask (batch : List AppShellTask)
deriving DecidableEq, Repr

/-- `os.FileInfo`, of which only `IsDir()` is used. -/
structure FileInfo where
  isDir : Bool
deriving DecidableEq, Repr

/-- One call `fn(fname, info, err)` made by `filepath.Walk`: `info = none` is the
nil `os.FileInfo` passed when the `Lstat` of `fname` failed; `err` is `err != nil`. -/
structure WalkEntry where
  fname : String
  info : Option FileInfo
  err : Bool
deriving DecidableEq, Repr

/-- What the process observes from outside while it handles one message. -/
structure Env where
  /-- Unicode lower-case table of the Go runtime for non-ASCII code points -/
  unicodeLower : Char → Char
  /-- `os.Stat(name)`: `none` when it returns an error, else `some fi.IsDir()` -/
  stat : String → Option Bool
  /-- the calls `filepath.Walk(root, fn)` makes when `fn` keeps returning nil -/
  walk : String → List WalkEntry
  /-- `toml.DecodeFile(name, &newConfig)`: `none` when it returns an error -/
  decodeFile : String → Option ProjectConfig
  /-- `exec.Command(cmd, args...).Run() == nil`, given the effects so far -/
  run : List Effect → String → List String → Bool
  /-- `pw.watcher.Add(name) == nil` -/
  watcherAdd : String → Bool
  /-- `pw.watcher.Remove(name) == nil` -/
  watcherRemove : String → Bool

/-- The state the watch loop works on: the watcher, the global `rootConfig` and
the trace of effects so far. -/
structure Sys where
  pw : ProjectWatcher
  rootConfig : ProjectConfig
  trace : List Effect
deriving DecidableEq, Repr

/-- Append effects to the trace. -/
def Sys.emit (s : Sys) (es : List Effect) : Sys := { s with trace := s.trace ++ es }

/-! ## `isIgnoredDir` -/

/-- The loop `for _, ignore := range pw.ignoreDirs` of `isIgnoredDir`. -/
def isIgnoredLoop (cleanPath : String) : List String → Bool
  | [] => false
  | ignore :: rest =>
    if stringsHasPrefix cleanPath ignore then true else isIgnoredLoop cleanPath rest

/-- `pw.isIgnoredDir(dir)`. -/
def isIgnoredDir (env : Env) (pw : ProjectWatcher) (dir : String) : Bool :=
  isIgnoredLoop (stringsToLower env.unicodeLower (pathClean dir)) pw.ignoreDirs

/-! ## Dependency resolution -/

/-- The loop over `rootConfig.Package.Dependencies` of `updateGolangDeps`:
returns the trace and whether every `go get` succeeded. -/
def goGetLoop (env : Env) : List String → List Effect → List Effect × Bool
  | [], tr => (tr, true)
  | dep :: rest, tr =>
    let tr1 := tr ++ [Effect.log "Info" "Loading Go package dependency: %v"]
    let ok := env.run tr1 "go" ["get", dep]
    let tr2 := tr1 ++ [Effect.run "go" ["get", dep]]
    if ok then goGetLoop env rest tr2
    else (tr2 ++ [Effect.log "Error" "Error when run go get: go %v, %v"], false)

/-- `updateGolangDeps()`; the boolean is `err == nil`. -/
def updateGolangDeps (env : Env) (s : Sys) : Sys × Bool :=
  match s.rootConfig.Package with
  | none => (s, true)
  | some pkg =>
    if pkg.Dependencies.length = 0 then (s, true)
    else
      let tr0 := s.trace ++
        [Effect.println, Effect.log "Info" "Start to loading Go dependencies..."]
      match goGetLoop env pkg.Dependencies tr0 with
      | (tr, true) =>
        ({ s with trace := tr ++ [Effect.log "Succ" "Loaded Go package dependencies: \n\t%v"] },
          true)
      | (tr, false) => ({ s with trace := tr }, false)

/-- The loop over `deps` of `updateAssetsDeps`: `npm list` first, `npm install`
only when the check fails. -/
def npmLoop (env : Env) : List String → List Effect → List Effect × Bool
  | [], tr => (tr, true)
  | dep :: rest, tr =>
    let listed := env.run tr "npm" ["list", "--depth", "0", dep]
    let tr1 := tr ++ [Effect.run "npm" ["list", "--depth", "0", dep]]
    if listed then
      npmLoop env rest (tr1 ++ [Effect.log "Info" "Checked npm module: %v"])
    else
      let tr2 := tr1 ++ [Effect.log "Info" "Loading npm module: %v"]
      let ok := env.run tr2 "npm" ["install", dep]
      let tr3 := tr2 ++ [Effect.run "npm" ["install", dep]]
      if ok then npmLoop env rest tr3
      else (tr3 ++ [Effect.log "Error" "Error when run npm install: npm %v, %v"], false)

/-- `updateAssetsDeps()`; the boolean is `err == nil`. -/
def updateAssetsDeps (env : Env) (s : Sys) : Sys × Bool :=
  match s.rootConfig.Assets with
  | none => (s, true)
  | some assets =>
    if assets.Dependencies.length = 0 then (s, true)
    else
      let tr0 := s.trace ++
        [Effect.println, Effect.log "Info" "Start to loading assets dependencies..."]
      let deps := assets.Dependencies ++
        ["browserify", "coffeeify", "envify", "uglifyify", "6to5ify", "nib", "stylus"]
      match npmLoop env deps tr0 with
      | (tr, true) =>
        ({ s with trace := tr ++ [Effect.log "Succ" "Loaded assets dependencies: \n\t%v"] },
          true)
      | (tr, false) => ({ s with trace := tr }, false)

/-! ## `hasGoTests` -/

/-- `filepath.Walk` over the calls it would make: the callback threads its
captured state, may fail at run time (`none`), and a non-nil error it returns
(`false`) stops the walk and is the result of `Walk`. -/
def filepathWalk {σ : Type} (fn : σ → WalkEntry → Option (σ × Bool)) :
    List WalkEntry → σ → Option (σ × Bool)
  | [], st => some (st, true)
  | e :: rest, st =>
    match fn st e with
    | none => none
    | some (st', true) => filepathWalk fn rest st'
    | some (st', false) => some (st', false)

/-- The callback of `hasGoTests`; the state is the captured variable `has`.
`!ok && !info.IsDir()` calls `IsDir` on `info` only when `fname` is not a key of
`ignoreTests`; on a nil `info` that call is a nil dereference. -/
def hasGoTestsFn (ignoreTests : List String) (has : Bool) (e : WalkEntry) :
    Option (Bool × Bool) :=
  if e.fname ∈ ignoreTests then some (has, true)
  else
    match e.info with
    | none => none
    | some info =>
      if ¬ info.isDir then
        (if stringsHasSuffix e.fname "_test.go" then some (true, true) else some (has, true))
      else some (has, true)

/-- `pw.hasGoTests(module)`; `none` is a runtime panic. `rootConfig.Package.OmitTests`
dereferences `rootConfig.Package`. -/
def hasGoTests (env : Env) (s : Sys) (module : String) : Option Bool :=
  match s.rootConfig.Package with
  | none => none
  | some pkg =>
    match filepathWalk (hasGoTestsFn pkg.OmitTests) (env.walk module) false with
    | none => none
    | some (has, errNil) => some (errNil && has)

/-! ## `updateConfig` -/

/-- The state of `updateConfig` right after `rootConfig.Unlock()`, when
`toml.DecodeFile` has returned `newConfig` without an error. -/
def swapConfig (s : Sys) (newConfig : ProjectConfig) : Sys :=
  let s1 := s.emit
    [Effect.log "Info" "Reloading the project.toml file ...",
     Effect.log "Succ" "Loaded the new project.toml, will update all the dependencies ..."]
  { s1 with rootConfig :=
      { Package := newConfig.Package, Assets := newConfig.Assets,
        Distribution := newConfig.Distribution } }

/-- `pw.updateConfig()`. -/
def updateConfig (env : Env) (s : Sys) : Sys :=
  match env.decodeFile "project.toml" with
  | none =>
    s.emit
      [Effect.log "Info" "Reloading the project.toml file ...",
       Effect.log "Error"
        "We found the project.toml has changed, but it contains some error, will omit it.",
       Effect.log "Error" "TOML Error: %v",
       Effect.println,
       Effect.log "Info" "Waiting for the file changes ..."]
  | some newConfig =>
    match updateGolangDeps env (swapConfig s newConfig) with
    | (s3, false) => s3.emit [Effect.log "Error" "Failed to load project Go dependencies, %v"]
    | (s3, true) =>
      match updateAssetsDeps env s3 with
      | (s4, false) =>
        s4.emit [Effect.log "Error" "Failed to load project assets dependencies, %v"]
      | (s4, true) =>
        let p1 := addTask s4.pw kTaskBuildImages ""
        let p2 := addTask p1 kTaskBuildStyles ""
        let p3 := addTask p2 kTaskBuildJavaScripts ""
        let p4 := addTask p3 kTaskBuildBinary ""
        { s4 with pw := p4 }

/-! ## The watch loop -/

/-- `fsnotify.Create`. -/
def fsnotifyCreate : Nat := 1

/-- `fsnotify.Write`. -/
def fsnotifyWrite : Nat := 2

/-- `fsnotify.Remove`. -/
def fsnotifyRemove : Nat := 4

/-- `fsnotify.Event`. -/
structure Event where
  Name : String
  Op : Nat
deriving DecidableEq, Repr

/-- `pw.watcher.Add(name)` on the registration table. fsnotify registers the
cleaned name (`name = filepath.Clean(name)`), once. -/
def watcherAdd (env : Env) (s : Sys) (name : String) (failure : Effect) : Sys :=
  if env.watcherAdd name then
    { s with pw := { s.pw with
        watcher :=
          if pathClean name ∈ s.pw.watcher then s.pw.watcher
          else s.pw.watcher ++ [pathClean name] } }
  else s.emit [failure]

/-- `pw.watcher.Remove(name)` on the registration table. fsnotify looks up the
cleaned name (`name = filepath.Clean(name)`) and returns an error when it is not
registered. -/
def watcherRemove (env : Env) (s : Sys) (name : String) (failure : Effect) : Sys :=
  if pathClean name ∈ s.pw.watcher ∧ env.watcherRemove name = true then
    { s with pw := { s.pw with
        watcher := s.pw.watcher.filter (fun d => d != pathClean name) } }
  else s.emit [failure]

/-- The body of `case event := <-pw.watcher.Events` of `watchProject`; `none` is
a runtime panic. -/
def handleEvent (env : Env) (s : Sys) (event : Event) : Option Sys :=
  if event.Name = "" ∨ isIgnoredDir env s.pw event.Name = true then some s
  else if event.Op &&& fsnotifyCreate = fsnotifyCreate then
    match env.stat event.Name with
    | some true =>
      some (watcherAdd env s event.Name
        (Effect.log "Error" "Failed to add new directory into watching list[%v], %v"))
    | _ => some s
  else if event.Op &&& fsnotifyRemove = fsnotifyRemove then
    match env.stat event.Name with
    | some true =>
      some (watcherRemove env s event.Name
        (Effect.log "Error" "Failed to remove directory from watching list [%v], %v"))
    | _ => some s
  else if event.Op &&& fsnotifyWrite = fsnotifyWrite then
    let s1 := if event.Name = "project.toml" then updateConfig env s else s
    if stringsHasSuffix event.Name ".go" then
      let goModule := pathDir event.Name
      match hasGoTests env s1 goModule with
      | none => none
      | some has =>
        let p1 := if has then addTask s1.pw kTaskBinaryTest goModule else s1.pw
        some { s1 with pw := addTask p1 kTaskBuildBinary goModule }
    else some s1
  else some s

/-- The body of `case <-tick` of `watchProject`. -/
def tick (s : Sys) : Sys :=
  if s.pw.tasks.length > 0 then
    { s with trace := s.trace ++ [Effect.executeTask s.pw.tasks],
             pw := { s.pw with tasks := [] } }
  else s

/-- The batches handed to the executor, in order. -/
def dispatched : List Effect → List (List AppShellTask)
  | [] => []
  | Effect.executeTask batch :: rest => batch :: dispatched rest
  | _ :: rest => dispatched rest

/-- The external commands run, in order. -/
def commandsRun : List Effect → List (String × List String)
  | [] => []
  | Effect.run cmd args :: rest => (cmd, args) :: commandsRun rest
  | _ :: rest => commandsRun rest

/-- One round of the `select` of `watchProject`. -/
inductive Msg where
  | event (e : Event)
  | error
  | tick
deriving DecidableEq, Repr

/-- One round of the `for { select { ... } }` loop of `watchProject`. -/
def watchStep (env : Env) (s : Sys) : Msg → Option Sys
  | Msg.event e => handleEvent env s e
  | Msg.error => some (s.emit [Effect.log "Error" "Error: %v"])
  | Msg.tick => some (tick s)

/-! ## Concrete environments and states, used to run the model -/

/-- An outside world in which nothing exists and every call succeeds. -/
def quietEnv : Env :=
  { unicodeLower := fun c => c
    stat := fun _ => none
    walk := fun _ => []
    decodeFile := fun _ => none
    run := fun _ _ _ => true
    watcherAdd := fun _ => true
    watcherRemove := fun _ => true }

/-- A configuration with an empty `[package]` section only. -/
def plainConfig : ProjectConfig :=
  { Package := some { Dependencies := [], OmitTests := [] }, Assets := none,
    Distribution := none }

/-- A fresh watcher with `plainConfig` and no effect so far. -/
def freshSys : Sys :=
  { pw := NewProjectWatcher, rootConfig := plainConfig, trace := [] }

/-- The world of `quietEnv` in which `name` is an existing directory. -/
def dirEnv (name : String) : Env :=
  { quietEnv with stat := fun n => if n = name then some true else none }

/-- The world of `quietEnv` in which `project.toml` decodes to a configuration
with one Go dependency and every external command fails. -/
def brokenDepsEnv : Env :=
  { quietEnv with
    decodeFile := fun _ =>
      some { Package := some { Dependencies := ["github.com/x/y"], OmitTests := [] },
             Assets := none, Distribution := none }
    run := fun _ _ _ => false }

/-- The world of `quietEnv` in which `project.toml` decodes to a configuration
with one Go dependency and one npm dependency. -/
def reloadEnv : Env :=
  { quietEnv with
    decodeFile := fun _ =>
      some { Package := some { Dependencies := ["github.com/x/y"], OmitTests := [] },
             Assets := some { Dependencies := ["react"] }, Distribution := none } }

/-- The world of `quietEnv` in which directory `foo` holds `bar.go` and
`bar_test.go`. -/
def fooEnv : Env :=
  { quietEnv with
    walk := fun root =>
      if root = "foo" then
        [{ fname := "foo", info := some { isDir := true }, err := false },
         { fname := "foo/bar.go", info := some { isDir := false }, err := false },
         { fname := "foo/bar_test.go", info := some { isDir := false }, err := false }]
      else [] }

/-- The world of `quietEnv` in which the directory to walk has just been removed:
`filepath.Walk` calls the callback once, with a nil `info` and the `Lstat` error. -/
def vanishedEnv : Env :=
  { quietEnv with walk := fun root => [{ fname := root, info := none, err := true }] }

/-- A fresh watcher whose configuration has no `[package]` section. -/
def noPackageSys : Sys :=
  { pw := NewProjectWatcher,
    rootConfig := { Package := none, Assets := none, Distribution := none },
    trace := [] }

/-- A fresh watcher whose configuration omits the tests of `foo/bar_test.go`. -/
def omitSys : Sys :=
  { pw := NewProjectWatcher,
    rootConfig :=
      { Package := some { Dependencies := [], OmitTests := ["foo/bar_test.go"] },
        Assets := none, Distribution := none },
    trace := [] }

/-- A watcher that observes directory `foo`. -/
def watchingFooSys : Sys :=
  { freshSys with pw := { NewProjectWatcher with watcher := ["foo"] } }

/-- The world of `reloadEnv` in which every `go` command succeeds and every `npm`
command fails. -/
def brokenNpmEnv : Env :=
  { reloadEnv with run := fun _ cmd _ => cmd != "npm" }

/-- The world of `quietEnv` in which the project root holds `main.go` and
`main_test.go`. -/
def rootEnv : Env :=
  { quietEnv with
    walk := fun root =>
      if root = "." then
        [{ fname := ".", info := some { isDir := true }, err := false },
         { fname := "main.go", info := some { isDir := false }, err := false },
         { fname := "main_test.go", info := some { isDir := false }, err := false }]
      else [] }

/-- The test `hasGoTests` applies to one walked entry: not a key of `ignoreTests`,
not a directory, name ending in `_test.go`. -/
def countsAsTest (ignoreTests : List String) (e : WalkEntry) : Prop :=
  e.fname ∉ ignoreTests ∧ e.info = some { isDir := false } ∧
    stringsHasSuffix e.fname "_test.go" = true

/-! ## Reference definitions, following the design document -/

/-- Keep only the first occurrence of each task. -/
def firstOccurrences : List AppShellTask → List AppShellTask
  | [] => []
  | x :: xs => x :: (firstOccurrences xs).filter (fun y => decide (y ≠ x))

/-- The tasks of a sequence of `add` calls, in arrival order. -/
def callTasks (calls : List (TaskType × String)) : List AppShellTask :=
  calls.map (fun c => AppShellTask.mk c.1 c.2)

/-- The reference batch: first occurrences only, stable-sorted by ascending kind. -/
def referenceBatch (calls : List (TaskType × String)) : List AppShellTask :=
  (firstOccurrences (callTasks calls)).mergeSort (fun a b => decide (a.taskType ≤ b.taskType))

/-- Recursive form of `addTaskQueue`, used in the proofs only. -/
def insertTask (t : AppShellTask) : List AppShellTask → List AppShellTask
  | [] => [t]
  | x :: rest =>
    if x = t then x :: rest
    else if x.taskType > t.taskType then t :: x :: rest
    else x :: insertTask t rest

/-! ## Fuel of `path.Clean` -/

theorem length_dropWhile_le (p : Char → Bool) (l : List Char) :
    (l.dropWhile p).length ≤ l.length := by
  induction l with
  | nil => simp
  | cons a t ih =>
    rw [List.dropWhile_cons]
    split
    · exact Nat.le_succ_of_le ih
    · exact Nat.le_refl _

/-- The loop of `path.Clean` never runs out of fuel: any two amounts of fuel
larger than the number of bytes left give the same buffer. -/
theorem cleanLoop_fuel (rooted : Bool) :
    ∀ (n m : Nat) (path out : List Char) (dotdot : Nat),
      path.length < n → path.length < m →
      cleanLoop rooted n path out dotdot = cleanLoop rooted m path out dotdot := by
  intro n
  induction n with
  | zero => intro m path out dotdot h; exact absurd h (Nat.not_lt_zero _)
  | succ n ih =>
    intro m path out dotdot hn hm
    cases m with
    | zero => exact absurd hm (Nat.not_lt_zero _)
    | succ m =>
      cases path with
      | nil => simp [cleanLoop]
      | cons c r =>
        have hrn : r.length < n := Nat.lt_of_succ_lt_succ hn
        have hrm : r.length < m := Nat.lt_of_succ_lt_succ hm
        have htl : r.tail.length ≤ r.length := by simp
        have hdw : ((c :: r).dropWhile (fun x => x != '/')).length ≤ r.length ∨ c = '/' := by
          by_cases hc : c = '/'
          · exact Or.inr hc
          · left
            have : (c != '/') = true := by simpa using hc
            rw [List.dropWhile_cons, if_pos this]
            exact length_dropWhile_le _ r
        unfold cleanLoop
        split
        · exact ih m r out dotdot hrn hrm
        · rename_i hc
          split
          · exact ih m r out dotdot hrn hrm
          · split
            · split
              · split
                · exact ih m _ _ _ (Nat.lt_of_le_of_lt htl hrn) (Nat.lt_of_le_of_lt htl hrm)
                · exact ih m _ _ _ (Nat.lt_of_le_of_lt htl hrn) (Nat.lt_of_le_of_lt htl hrm)
              · split
                · exact ih m _ _ _ (Nat.lt_of_le_of_lt htl hrn) (Nat.lt_of_le_of_lt htl hrm)
                · exact ih m _ _ _ (Nat.lt_of_le_of_lt htl hrn) (Nat.lt_of_le_of_lt htl hrm)
            · rcases hdw with h | h
              · exact ih m _ _ _ (Nat.lt_of_le_of_lt h hrn) (Nat.lt_of_le_of_lt h hrm)
              · exact absurd h hc

/-! ## Lemmas on `addTask` -/

theorem addTaskScan_spec (taskType : TaskType) (module : String) :
    ∀ (rest pre : List AppShellTask),
      (match addTaskScan taskType module rest pre.length with
        | ScanResult.found => pre ++ rest
        | ScanResult.insertAt i =>
          (pre ++ rest).take i ++ ([AppShellTask.mk taskType module] ++ (pre ++ rest).drop i)
        | ScanResult.notAdded => (pre ++ rest) ++ [AppShellTask.mk taskType module])
      = pre ++ insertTask (AppShellTask.mk taskType module) rest := by
  intro rest
  induction rest with
  | nil => intro pre; simp [addTaskScan, insertTask]
  | cons x rest ih =>
    intro pre
    unfold addTaskScan insertTask
    by_cases h1 : x.taskType = taskType ∧ x.module = module
    · have hx : x = AppShellTask.mk taskType module := by
        cases x; simp_all
      simp [hx]
    · have hx : ¬ x = AppShellTask.mk taskType module := by
        intro hx; apply h1; subst hx; exact ⟨rfl, rfl⟩
      rw [if_neg h1, if_neg hx]
      by_cases h2 : x.taskType > taskType
      · simp [h2]
      · rw [if_neg h2, if_neg h2]
        have := ih (pre ++ [x])
        simpa using this

theorem addTaskQueue_eq_insertTask (tasks : List AppShellTask) (taskType : TaskType)
    (module : String) :
    addTaskQueue tasks taskType module = insertTask (AppShellTask.mk taskType module) tasks := by
  have := addTaskScan_spec taskType module tasks []
  simpa [addTaskQueue] using this

theorem mem_insertTask (t x : AppShellTask) (q : List AppShellTask) :
    x ∈ insertTask t q ↔ x = t ∨ x ∈ q := by
  induction q with
  | nil => simp [insertTask]
  | cons y rest ih =>
    unfold insertTask
    by_cases h1 : y = t
    · subst h1; simp
    · rw [if_neg h1]
      by_cases h2 : y.taskType > t.taskType
      · rw [if_pos h2]; simp
      · rw [if_neg h2]; simp [ih]; tauto

theorem insertTask_of_mem (t : AppShellTask) (q : List AppShellTask)
    (hs : SortedByType q) (hm : t ∈ q) : insertTask t q = q := by
  induction q with
  | nil => simp at hm
  | cons y rest ih =>
    unfold insertTask
    by_cases h1 : y = t
    · rw [if_pos h1]
    · rw [if_neg h1]
      have hs' := List.pairwise_cons.mp hs
      have hm' : t ∈ rest := by
        rcases List.mem_cons.mp hm with h | h
        · exact absurd h.symm h1
        · exact h
      have hle : y.taskType ≤ t.taskType := hs'.1 t hm'
      rw [if_neg (not_lt.mpr hle), ih hs'.2 hm']

theorem insertTask_sorted (t : AppShellTask) (q : List AppShellTask)
    (hs : SortedByType q) : SortedByType (insertTask t q) := by
  induction q with
  | nil => simp [insertTask, SortedByType]
  | cons y rest ih =>
    unfold insertTask
    have hs' := List.pairwise_cons.mp hs
    by_cases h1 : y = t
    · rw [if_pos h1]; exact hs
    · rw [if_neg h1]
      by_cases h2 : y.taskType > t.taskType
      · rw [if_pos h2]
        refine List.pairwise_cons.mpr ⟨?_, hs⟩
        intro z hz
        rcases List.mem_cons.mp hz with h | h
        · subst h; exact le_of_lt h2
        · exact le_trans (le_of_lt h2) (hs'.1 z h)
      · rw [if_neg h2]
        refine List.pairwise_cons.mpr ⟨?_, ih hs'.2⟩
        intro z hz
        rcases (mem_insertTask t z rest).mp hz with h | h
        · subst h; exact not_lt.mp h2
        · exact hs'.1 z h

theorem insertTask_nodup (t : AppShellTask) (q : List AppShellTask)
    (hs : SortedByType q) (hn : q.Nodup) : (insertTask t q).Nodup := by
  induction q with
  | nil => simp [insertTask]
  | cons y rest ih =>
    unfold insertTask
    have hs' := List.pairwise_cons.mp hs
    have hn' := List.nodup_cons.mp hn
    by_cases h1 : y = t
    · rw [if_pos h1]; exact hn
    · rw [if_neg h1]
      by_cases h2 : y.taskType > t.taskType
      · rw [if_pos h2]
        refine List.nodup_cons.mpr ⟨?_, hn⟩
        intro hz
        rcases List.mem_cons.mp hz with h | h
        · exact h1 h.symm
        · exact absurd (hs'.1 t h) (not_le.mpr h2)
      · rw [if_neg h2]
        refine List.nodup_cons.mpr ⟨?_, ih hs'.2 hn'.2⟩
        intro hz
        rcases (mem_insertTask t y rest).mp hz with h | h
        · exact h1 h
        · exact hn'.1 h

theorem insertTask_filter (t : AppShellTask) (q : List AppShellTask) (k : TaskType)
    (hs : SortedByType q) (hm : t ∉ q) :
    (insertTask t q).filter (fun a => decide (a.taskType = k)) =
      q.filter (fun a => decide (a.taskType = k)) ++
        (if t.taskType = k then [t] else []) := by
  induction q with
  | nil => by_cases hk : t.taskType = k <;> simp [insertTask, hk]
  | cons y rest ih =>
    unfold insertTask
    have hs' := List.pairwise_cons.mp hs
    have h1 : ¬ y = t := fun h => hm (by simp [h])
    have hm' : t ∉ rest := fun h => hm (List.mem_cons_of_mem _ h)
    rw [if_neg h1]
    by_cases h2 : y.taskType > t.taskType
    · rw [if_pos h2]
      by_cases hk : t.taskType = k
      · have hnone : (y :: rest).filter (fun a => decide (a.taskType = k)) = [] := by
          apply List.filter_eq_nil_iff.mpr
          intro z hz
          have hz' : y.taskType ≤ z.taskType := by
            rcases List.mem_cons.mp hz with h | h
            · subst h; exact le_refl _
            · exact hs'.1 z h
          simp only [decide_eq_true_eq]
          intro hzk
          have hle : y.taskType ≤ t.taskType := by rw [hk, ← hzk]; exact hz'
          exact absurd h2 (not_lt.mpr hle)
        rw [List.filter_cons, hnone]
        simp [hk]
      · simp [hk]
    · rw [if_neg h2, List.filter_cons, List.filter_cons, ih hs'.2 hm']
      by_cases hy : y.taskType = k <;> simp [hy]

/-- Two lists sorted by type that agree on every type class are equal. -/
theorem sorted_eq_of_filter_eq :
    ∀ (l₁ l₂ : List AppShellTask), SortedByType l₁ → SortedByType l₂ →
      (∀ k : TaskType, l₁.filter (fun a => decide (a.taskType = k)) =
        l₂.filter (fun a => decide (a.taskType = k))) → l₁ = l₂ := by
  intro l₁
  induction l₁ with
  | nil =>
    intro l₂ _ _ h
    cases l₂ with
    | nil => rfl
    | cons b t₂ =>
      have := h b.taskType
      simp at this
  | cons a t₁ ih =>
    intro l₂ h1 h2 h
    cases l₂ with
    | nil =>
      have := h a.taskType
      simp at this
    | cons b t₂ =>
      have hs1 := List.pairwise_cons.mp h1
      have hs2 := List.pairwise_cons.mp h2
      have ha : a ∈ (b :: t₂).filter (fun x => decide (x.taskType = a.taskType)) := by
        rw [← h a.taskType]; simp
      have hb : b ∈ (a :: t₁).filter (fun x => decide (x.taskType = b.taskType)) := by
        rw [h b.taskType]; simp
      have hba : b.taskType ≤ a.taskType := by
        rcases List.mem_cons.mp (List.mem_filter.mp ha).1 with e | m
        · rw [e]
        · exact hs2.1 a m
      have hab : a.taskType ≤ b.taskType := by
        rcases List.mem_cons.mp (List.mem_filter.mp hb).1 with e | m
        · rw [e]
        · exact hs1.1 b m
      have hk : a.taskType = b.taskType := le_antisymm hab hba
      have hhead := h a.taskType
      rw [List.filter_cons, List.filter_cons] at hhead
      simp only [decide_True, if_true, hk.symm] at hhead
      have e : a = b := (List.cons.inj hhead).1
      subst e
      congr 1
      apply ih t₂ hs1.2 hs2.2
      intro k
      have hkk := h k
      rw [List.filter_cons, List.filter_cons] at hkk
      by_cases hd : a.taskType = k
      · simp only [hd, decide_True, if_true] at hkk
        exact (List.cons.inj hkk).2
      · simpa [hd] using hkk

/-! ## Lemmas on the reference batch -/

theorem mem_firstOccurrences (x : AppShellTask) (l : List AppShellTask) :
    x ∈ firstOccurrences l ↔ x ∈ l := by
  induction l with
  | nil => simp [firstOccurrences]
  | cons y rest ih =>
    simp only [firstOccurrences, List.mem_cons, List.mem_filter, ih, decide_eq_true_eq]
    by_cases h : x = y <;> simp [h]

theorem firstOccurrences_snoc (l : List AppShellTask) (t : AppShellTask) :
    firstOccurrences (l ++ [t]) =
      if t ∈ l then firstOccurrences l else firstOccurrences l ++ [t] := by
  induction l with
  | nil => simp [firstOccurrences]
  | cons y rest ih =>
    have hunf : firstOccurrences (y :: rest ++ [t]) =
        y :: (firstOccurrences (rest ++ [t])).filter (fun z => decide (z ≠ y)) := rfl
    have hunf' : firstOccurrences (y :: rest) =
        y :: (firstOccurrences rest).filter (fun z => decide (z ≠ y)) := rfl
    rw [hunf, hunf', ih]
    by_cases hty : t = y
    · subst hty
      by_cases hr : t ∈ rest <;> simp [hr, List.filter_append]
    · have hyt : ¬ y = t := fun h => hty h.symm
      by_cases hr : t ∈ rest <;> simp [hr, hty, hyt, List.filter_append]

theorem typeLe_trans (a b c : AppShellTask)
    (h1 : decide (a.taskType ≤ b.taskType) = true)
    (h2 : decide (b.taskType ≤ c.taskType) = true) :
    decide (a.taskType ≤ c.taskType) = true := by
  simp only [decide_eq_true_eq] at *
  exact le_trans h1 h2

theorem typeLe_total (a b : AppShellTask) :
    (decide (a.taskType ≤ b.taskType) || decide (b.taskType ≤ a.taskType)) = true := by
  simp only [Bool.or_eq_true, decide_eq_true_eq]
  exact le_total _ _

theorem mergeSort_sortedByType (l : List AppShellTask) :
    SortedByType (l.mergeSort (fun a b => decide (a.taskType ≤ b.taskType))) := by
  have h := List.sorted_mergeSort typeLe_trans typeLe_total l
  unfold SortedByType
  exact h.imp (fun hab => by simpa using hab)

/-- Stability of the reference sort: within one type the arrival order is kept. -/
theorem mergeSort_filter_type (l : List AppShellTask) (k : TaskType) :
    (l.mergeSort (fun a b => decide (a.taskType ≤ b.taskType))).filter
        (fun a => decide (a.taskType = k)) =
      l.filter (fun a => decide (a.taskType = k)) := by
  have hpw : (l.filter (fun a => decide (a.taskType = k))).Pairwise
      (fun a b => decide (a.taskType ≤ b.taskType) = true) := by
    apply List.pairwise_of_forall_mem_list
    intro a ha b hb
    have h1 := (List.mem_filter.mp ha).2
    have h2 := (List.mem_filter.mp hb).2
    simp only [decide_eq_true_eq] at h1 h2 ⊢
    rw [h1, h2]
  have hsub : List.Sublist (l.filter (fun a => decide (a.taskType = k)))
      (l.mergeSort (fun a b => decide (a.taskType ≤ b.taskType))) :=
    List.sublist_mergeSort typeLe_trans typeLe_total hpw (List.filter_sublist l)
  have hsub2 := hsub.filter (fun a => decide (a.taskType = k))
  rw [List.filter_filter] at hsub2
  simp only [Bool.and_self] at hsub2
  have hlen : ((l.mergeSort (fun a b => decide (a.taskType ≤ b.taskType))).filter
      (fun a => decide (a.taskType = k))).length =
      (l.filter (fun a => decide (a.taskType = k))).length :=
    ((List.mergeSort_perm l _).filter _).length_eq
  exact (hsub2.eq_of_length hlen.symm).symm

/-! ## Invariants of `addTasks` -/

theorem addTasks_snoc (pw : ProjectWatcher) (calls : List (TaskType × String))
    (c : TaskType × String) :
    addTasks pw (calls ++ [c]) = addTask (addTasks pw calls) c.1 c.2 := by
  simp [addTasks, List.foldl_append]

theorem addTask_tasks (pw : ProjectWatcher) (taskType : TaskType) (module : String) :
    (addTask pw taskType module).tasks =
      insertTask (AppShellTask.mk taskType module) pw.tasks := by
  simp [addTask, addTaskQueue_eq_insertTask]

/-- From the empty queue, every sequence of `addTask` calls leaves a queue that
is sorted by type, has no duplicate, and agrees type by type with the first
occurrences of the calls in arrival order. -/
theorem addTasks_invariant (calls : List (TaskType × String)) :
    SortedByType (addTasks NewProjectWatcher calls).tasks ∧
    (addTasks NewProjectWatcher calls).tasks.Nodup ∧
    ∀ k : TaskType,
      (addTasks NewProjectWatcher calls).tasks.filter (fun a => decide (a.taskType = k)) =
        (firstOccurrences (callTasks calls)).filter (fun a => decide (a.taskType = k)) := by
  induction calls using List.reverseRecOn with
  | nil => simp [addTasks, NewProjectWatcher, SortedByType, callTasks, firstOccurrences]
  | append_singleton calls c ih =>
    obtain ⟨hs, hn, hf⟩ := ih
    rw [addTasks_snoc, addTask_tasks]
    refine ⟨insertTask_sorted _ _ hs, insertTask_nodup _ _ hs hn, ?_⟩
    intro k
    have hmem : ∀ t : AppShellTask,
        t ∈ (addTasks NewProjectWatcher calls).tasks ↔ t ∈ callTasks calls := by
      intro t
      rw [← mem_firstOccurrences t (callTasks calls)]
      constructor
      · intro h
        have : t ∈ (addTasks NewProjectWatcher calls).tasks.filter
            (fun a => decide (a.taskType = t.taskType)) := by
          simp [List.mem_filter, h]
        rw [hf] at this
        exact (List.mem_filter.mp this).1
      · intro h
        have : t ∈ (firstOccurrences (callTasks calls)).filter
            (fun a => decide (a.taskType = t.taskType)) := by
          simp [List.mem_filter, h]
        rw [← hf] at this
        exact (List.mem_filter.mp this).1
    have hcalls : callTasks (calls ++ [c]) = callTasks calls ++ [AppShellTask.mk c.1 c.2] := by
      simp [callTasks]
    rw [hcalls, firstOccurrences_snoc]
    by_cases hin : AppShellTask.mk c.1 c.2 ∈ callTasks calls
    · rw [if_pos hin, insertTask_of_mem _ _ hs ((hmem _).mpr hin)]
      exact hf k
    · rw [if_neg hin, insertTask_filter _ _ k hs (fun h => hin ((hmem _).mp h)),
        List.filter_append, hf k]
      by_cases hk : c.1 = k <;> simp [hk]

/-! ## The claims -/

/-- C1: starting from the empty queue of `NewProjectWatcher`, after every finite
sequence of `addTask` calls, and after every initial part of it, the queue has
no two equal `(taskType, module)` elements and is sorted by non-decreasing
`taskType`. -/
theorem addTask_queue_nodup_sorted (calls : List (TaskType × String)) (n : Nat) :
    NewProjectWatcher.tasks = [] ∧
    (addTasks NewProjectWatcher (calls.take n)).tasks.Nodup ∧
    SortedByType (addTasks NewProjectWatcher (calls.take n)).tasks :=
  ⟨rfl, (addTasks_invariant (calls.take n)).2.1, (addTasks_invariant (calls.take n)).1⟩

/-- C2: for every finite sequence of `addTask` calls on the empty queue the queue
equals the reference batch (first occurrence of each pair, stable-sorted by
ascending type); adding BinaryTest, BuildImages, BuildBinary in that order
yields BuildImages, BuildBinary, BinaryTest. -/
theorem addTasks_eq_referenceBatch :
    (∀ calls : List (TaskType × String),
      (addTasks NewProjectWatcher calls).tasks = referenceBatch calls) ∧
    (∀ m₁ m₂ m₃ : String,
      (addTasks NewProjectWatcher
        [(kTaskBinaryTest, m₁), (kTaskBuildImages, m₂), (kTaskBuildBinary, m₃)]).tasks =
      [AppShellTask.mk kTaskBuildImages m₂, AppShellTask.mk kTaskBuildBinary m₃,
       AppShellTask.mk kTaskBinaryTest m₁]) := by
  constructor
  · intro calls
    obtain ⟨hs, _, hf⟩ := addTasks_invariant calls
    apply sorted_eq_of_filter_eq _ _ hs (mergeSort_sortedByType _)
    intro k
    rw [hf k, mergeSort_filter_type]
  · intro m₁ m₂ m₃
    simp [addTasks, addTask, addTaskQueue, addTaskScan, NewProjectWatcher,
      kTaskBinaryTest, kTaskBuildImages, kTaskBuildBinary]

/-! ## The tick -/

theorem dispatched_append (xs ys : List Effect) :
    dispatched (xs ++ ys) = dispatched xs ++ dispatched ys := by
  induction xs with
  | nil => rfl
  | cons e rest ih => cases e <;> simp [dispatched, ih]

theorem addTask_tasks_ne_nil (pw : ProjectWatcher) (taskType : TaskType) (module : String) :
    (addTask pw taskType module).tasks ≠ [] := by
  rw [addTask_tasks]
  intro h
  have := (mem_insertTask (AppShellTask.mk taskType module) (AppShellTask.mk taskType module)
    pw.tasks).mpr (Or.inl rfl)
  rw [h] at this
  simp at this

/-- C3: the tick drains exhaustively. On a non-empty queue the executor is called
exactly once, with the whole queue in its current order, and the queue is empty
afterwards; on an empty queue nothing happens. After any `addTask`, the first of
two ticks dispatches the batch and the second dispatches nothing. -/
theorem tick_drains_queue :
    (∀ s : Sys, s.pw.tasks ≠ [] →
      tick s = { s with trace := s.trace ++ [Effect.executeTask s.pw.tasks],
                        pw := { s.pw with tasks := [] } } ∧
      dispatched (tick s).trace = dispatched s.trace ++ [s.pw.tasks] ∧
      (tick s).pw.tasks = []) ∧
    (∀ s : Sys, s.pw.tasks = [] → tick s = s) ∧
    (∀ (s : Sys) (taskType : TaskType) (module : String),
      dispatched (tick { s with pw := addTask s.pw taskType module }).trace =
        dispatched s.trace ++ [(addTask s.pw taskType module).tasks] ∧
      (tick { s with pw := addTask s.pw taskType module }).pw.tasks = [] ∧
      tick (tick { s with pw := addTask s.pw taskType module }) =
        tick { s with pw := addTask s.pw taskType module }) := by
  have hne : ∀ s : Sys, s.pw.tasks ≠ [] →
      tick s = { s with trace := s.trace ++ [Effect.executeTask s.pw.tasks],
                        pw := { s.pw with tasks := [] } } := by
    intro s h
    have hlen : s.pw.tasks.length > 0 := List.length_pos.mpr h
    simp [tick, hlen]
  have hemp : ∀ s : Sys, s.pw.tasks = [] → tick s = s := by
    intro s h
    simp [tick, h]
  refine ⟨?_, hemp, ?_⟩
  · intro s h
    refine ⟨hne s h, ?_, ?_⟩
    · rw [hne s h]; simp [dispatched_append, dispatched]
    · rw [hne s h]
  · intro s taskType module
    have h := addTask_tasks_ne_nil s.pw taskType module
    have h1 := hne { s with pw := addTask s.pw taskType module } h
    refine ⟨?_, ?_, ?_⟩
    · rw [h1]; simp [dispatched_append, dispatched]
    · rw [h1]
    · apply hemp; rw [h1]

/-- Witness of C3 on the fresh watcher after one `addTask`. -/
theorem tick_drains_queue_witness :
    (tick { freshSys with pw := addTask freshSys.pw kTaskBuildBinary "foo" }).pw.tasks = [] ∧
    dispatched (tick { freshSys with pw := addTask freshSys.pw kTaskBuildBinary "foo" }).trace =
      [[AppShellTask.mk kTaskBuildBinary "foo"]] ∧
    tick freshSys = freshSys :=
  ⟨(tick_drains_queue.1 { freshSys with pw := addTask freshSys.pw kTaskBuildBinary "foo" }
      (by decide)).2.2,
   (tick_drains_queue.1 { freshSys with pw := addTask freshSys.pw kTaskBuildBinary "foo" }
      (by decide)).2.1,
   tick_drains_queue.2.1 freshSys (by decide)⟩

/-! ## The path filter -/

theorem isIgnoredLoop_iff (cleanPath : String) (ignoreDirs : List String) :
    isIgnoredLoop cleanPath ignoreDirs = true ↔
      ∃ ignore ∈ ignoreDirs, stringsHasPrefix cleanPath ignore = true := by
  induction ignoreDirs with
  | nil => simp [isIgnoredLoop]
  | cons ig rest ih =>
    unfold isIgnoredLoop
    by_cases h : stringsHasPrefix cleanPath ig = true
    · simp [h]
    · simp [h, ih]

/-- C4: `isIgnoredDir(p)` is true exactly when the lower-cased, cleaned form of
`p` starts with one of the ignore entries, which are `.git`, `node_modules` and
`public`; the match is case-insensitive: `NODE_MODULES/x.js` is ignored. -/
theorem isIgnoredDir_iff_cleaned_lowered :
    (∀ (env : Env) (pw : ProjectWatcher) (p : String),
      isIgnoredDir env pw p = true ↔
        ∃ ignore ∈ pw.ignoreDirs,
          List.IsPrefix ignore.data (stringsToLower env.unicodeLower (pathClean p)).data) ∧
    NewProjectWatcher.ignoreDirs = [".git", "node_modules", "public"] ∧
    (∀ env : Env, isIgnoredDir env NewProjectWatcher "NODE_MODULES/x.js" = true) := by
  refine ⟨?_, rfl, ?_⟩
  · intro env pw p
    unfold isIgnoredDir
    rw [isIgnoredLoop_iff]
    simp [stringsHasPrefix]
  · intro env
    rfl

/-! ## Events that are filtered out -/

/-- C8: an event of any operation whose path is empty or matched by
`isIgnoredDir` is a no-op: watched set, task queue, configuration and trace are
unchanged, so a creation event for an ignored path registers nothing. -/
theorem handleEvent_ignored_noop (env : Env) (s : Sys) (event : Event)
    (h : event.Name = "" ∨ isIgnoredDir env s.pw event.Name = true) :
    handleEvent env s event = some s ∧
    (∀ s', handleEvent env s event = some s' →
      s'.pw.watcher = s.pw.watcher ∧ s'.pw.tasks = s.pw.tasks ∧
      s'.rootConfig = s.rootConfig) := by
  have h1 : handleEvent env s event = some s := by
    unfold handleEvent
    rw [if_pos h]
  refine ⟨h1, ?_⟩
  intro s' hs'
  rw [h1] at hs'
  cases hs'
  exact ⟨rfl, rfl, rfl⟩

/-- Witness of C8: a creation event for the existing directory `.git/hooks`. -/
theorem handleEvent_ignored_noop_witness :
    isIgnoredDir (dirEnv ".git/hooks") freshSys.pw ".git/hooks" = true ∧
    handleEvent (dirEnv ".git/hooks") freshSys (Event.mk ".git/hooks" fsnotifyCreate) =
      some freshSys :=
  ⟨by decide,
   (handleEvent_ignored_noop (dirEnv ".git/hooks") freshSys
      (Event.mk ".git/hooks" fsnotifyCreate) (Or.inr (by decide))).1⟩

/-! ## Configuration reload -/

theorem commandsRun_append (xs ys : List Effect) :
    commandsRun (xs ++ ys) = commandsRun xs ++ commandsRun ys := by
  induction xs with
  | nil => rfl
  | cons e rest ih => cases e <;> simp [commandsRun, ih]

theorem watcherAdd_frame (env : Env) (s : Sys) (name : String) (lvl fmt : String) :
    (watcherAdd env s name (Effect.log lvl fmt)).rootConfig = s.rootConfig ∧
    (watcherAdd env s name (Effect.log lvl fmt)).pw.tasks = s.pw.tasks ∧
    commandsRun (watcherAdd env s name (Effect.log lvl fmt)).trace = commandsRun s.trace := by
  unfold watcherAdd
  by_cases h : env.watcherAdd name = true
  · simp [h]
  · simp [h, Sys.emit, commandsRun_append, commandsRun]

theorem watcherRemove_frame (env : Env) (s : Sys) (name : String) (lvl fmt : String) :
    (watcherRemove env s name (Effect.log lvl fmt)).rootConfig = s.rootConfig ∧
    (watcherRemove env s name (Effect.log lvl fmt)).pw.tasks = s.pw.tasks ∧
    commandsRun (watcherRemove env s name (Effect.log lvl fmt)).trace =
      commandsRun s.trace := by
  unfold watcherRemove
  by_cases h : pathClean name ∈ s.pw.watcher ∧ env.watcherRemove name = true
  · simp [h]
  · simp [h, Sys.emit, commandsRun_append, commandsRun]

theorem updateConfig_parse_failure (env : Env) (s : Sys)
    (hdec : env.decodeFile "project.toml" = none) :
    (updateConfig env s).rootConfig = s.rootConfig ∧
    (updateConfig env s).pw = s.pw ∧
    commandsRun (updateConfig env s).trace = commandsRun s.trace := by
  unfold updateConfig
  rw [hdec]
  simp [Sys.emit, commandsRun_append, commandsRun]

/-- C7: when the new content of `project.toml` fails to parse, handling an event
on that file (a write event in particular) leaves `rootConfig` unchanged
(`Package`, `Assets`, `Distribution`), runs no external command, and leaves the
task queue unchanged. -/
theorem handleEvent_parse_failure_keeps_state (env : Env) (s : Sys) (event : Event)
    (hname : event.Name = "project.toml")
    (hdec : env.decodeFile "project.toml" = none) :
    ∃ s', handleEvent env s event = some s' ∧
      s'.rootConfig = s.rootConfig ∧
      commandsRun s'.trace = commandsRun s.trace ∧
      s'.pw.tasks = s.pw.tasks := by
  have hsuf : stringsHasSuffix "project.toml" ".go" = false := by decide
  unfold handleEvent
  rw [hname]
  split
  · exact ⟨s, rfl, rfl, rfl, rfl⟩
  · split
    · split
      · obtain ⟨h1, h2, h3⟩ := watcherAdd_frame env s "project.toml" "Error"
          "Failed to add new directory into watching list[%v], %v"
        exact ⟨_, rfl, h1, h3, h2⟩
      · exact ⟨s, rfl, rfl, rfl, rfl⟩
    · split
      · split
        · obtain ⟨h1, h2, h3⟩ := watcherRemove_frame env s "project.toml" "Error"
            "Failed to remove directory from watching list [%v], %v"
          exact ⟨_, rfl, h1, h3, h2⟩
        · exact ⟨s, rfl, rfl, rfl, rfl⟩
      · split
        · obtain ⟨h1, h2, h3⟩ := updateConfig_parse_failure env s hdec
          simp only [if_true, hsuf]
          refine ⟨_, rfl, h1, h3, ?_⟩
          rw [h2]
        · exact ⟨s, rfl, rfl, rfl, rfl⟩

/-- Witness of C7: a write event on `project.toml` in a world where the decoder
fails; the reload is attempted and only reported. -/
theorem handleEvent_parse_failure_keeps_state_witness :
    (∃ s', handleEvent quietEnv freshSys (Event.mk "project.toml" fsnotifyWrite) = some s' ∧
      s'.rootConfig = freshSys.rootConfig ∧
      commandsRun s'.trace = commandsRun freshSys.trace ∧
      s'.pw.tasks = freshSys.pw.tasks) ∧
    handleEvent quietEnv freshSys (Event.mk "project.toml" fsnotifyWrite) =
      some (freshSys.emit
        [Effect.log "Info" "Reloading the project.toml file ...",
         Effect.log "Error"
          "We found the project.toml has changed, but it contains some error, will omit it.",
         Effect.log "Error" "TOML Error: %v",
         Effect.println,
         Effect.log "Info" "Waiting for the file changes ..."]) :=
  ⟨handleEvent_parse_failure_keeps_state quietEnv freshSys
      (Event.mk "project.toml" fsnotifyWrite) rfl rfl,
   by decide⟩

theorem updateGolangDeps_frame (env : Env) (s : Sys) :
    (updateGolangDeps env s).1.pw = s.pw ∧
    (updateGolangDeps env s).1.rootConfig = s.rootConfig := by
  unfold updateGolangDeps
  split
  · exact ⟨rfl, rfl⟩
  · split
    · exact ⟨rfl, rfl⟩
    · dsimp only
      split <;> exact ⟨rfl, rfl⟩

theorem updateAssetsDeps_frame (env : Env) (s : Sys) :
    (updateAssetsDeps env s).1.pw = s.pw ∧
    (updateAssetsDeps env s).1.rootConfig = s.rootConfig := by
  unfold updateAssetsDeps
  split
  · exact ⟨rfl, rfl⟩
  · split
    · exact ⟨rfl, rfl⟩
    · dsimp only
      split <;> exact ⟨rfl, rfl⟩

theorem addTask_preserves (pw : ProjectWatcher) (taskType : TaskType) (module : String)
    (hs : SortedByType pw.tasks) (hn : pw.tasks.Nodup) :
    SortedByType (addTask pw taskType module).tasks ∧
    (addTask pw taskType module).tasks.Nodup ∧
    (∀ t, t ∈ (addTask pw taskType module).tasks ↔
      t = AppShellTask.mk taskType module ∨ t ∈ pw.tasks) := by
  rw [addTask_tasks]
  exact ⟨insertTask_sorted _ _ hs, insertTask_nodup _ _ hs hn, fun t => mem_insertTask _ t _⟩

theorem projectToml_not_ignored (env : Env) (pw : ProjectWatcher)
    (hig : pw.ignoreDirs = NewProjectWatcher.ignoreDirs) :
    isIgnoredDir env pw "project.toml" = false := by
  unfold isIgnoredDir
  rw [hig]
  rfl

/-- The queue after a reload whose decoding and dependency resolutions succeed. -/
theorem updateConfig_success (env : Env) (s : Sys) (newConfig : ProjectConfig)
    (hdec : env.decodeFile "project.toml" = some newConfig)
    (hgo : (updateGolangDeps env (swapConfig s newConfig)).2 = true)
    (hnpm : (updateAssetsDeps env (updateGolangDeps env (swapConfig s newConfig)).1).2 = true) :
    (updateConfig env s).pw =
      addTask (addTask (addTask (addTask s.pw kTaskBuildImages "") kTaskBuildStyles "")
        kTaskBuildJavaScripts "") kTaskBuildBinary "" := by
  unfold updateConfig
  rw [hdec]
  have hpw1 := (updateGolangDeps_frame env (swapConfig s newConfig)).1
  have hpw2 := (updateAssetsDeps_frame env (updateGolangDeps env (swapConfig s newConfig)).1).1
  rcases hG : updateGolangDeps env (swapConfig s newConfig) with ⟨s3, b3⟩
  rw [hG] at hgo hnpm hpw1 hpw2
  simp only at hgo hnpm hpw1 hpw2
  subst hgo
  rcases hA : updateAssetsDeps env s3 with ⟨s4, b4⟩
  rw [hA] at hnpm hpw2
  simp only at hnpm hpw2
  subst hnpm
  simp only
  rw [hG]
  simp only
  rw [hA]
  simp only
  rw [hpw2, hpw1]
  rfl

theorem updateConfig_go_failure (env : Env) (s : Sys) (newConfig : ProjectConfig)
    (hdec : env.decodeFile "project.toml" = some newConfig)
    (hgo : (updateGolangDeps env (swapConfig s newConfig)).2 = false) :
    updateConfig env s =
      (updateGolangDeps env (swapConfig s newConfig)).1.emit
        [Effect.log "Error" "Failed to load project Go dependencies, %v"] := by
  unfold updateConfig
  rw [hdec]
  rcases hG : updateGolangDeps env (swapConfig s newConfig) with ⟨s3, b3⟩
  rw [hG] at hgo
  simp only at hgo
  subst hgo
  simp only
  rw [hG]

theorem updateConfig_assets_failure (env : Env) (s : Sys) (newConfig : ProjectConfig)
    (hdec : env.decodeFile "project.toml" = some newConfig)
    (hgo : (updateGolangDeps env (swapConfig s newConfig)).2 = true)
    (hnpm : (updateAssetsDeps env (updateGolangDeps env (swapConfig s newConfig)).1).2 = false) :
    updateConfig env s =
      (updateAssetsDeps env (updateGolangDeps env (swapConfig s newConfig)).1).1.emit
        [Effect.log "Error" "Failed to load project assets dependencies, %v"] := by
  unfold updateConfig
  rw [hdec]
  rcases hG : updateGolangDeps env (swapConfig s newConfig) with ⟨s3, b3⟩
  rw [hG] at hgo hnpm
  simp only at hgo hnpm
  subst hgo
  rcases hA : updateAssetsDeps env s3 with ⟨s4, b4⟩
  rw [hA] at hnpm
  simp only at hnpm
  subst hnpm
  simp only
  rw [hG]
  simp only
  rw [hA]

/-- C6, as amended: take a write event on `project.toml` (write bit set, create
and remove bits clear, watcher with the ignore list of `NewProjectWatcher`)
whose content parses, and any prior queue reachable by `addTask`. If the Go and
the assets dependency resolutions both succeed, the queue after the reload has
no duplicate and holds exactly one each of BuildImages, BuildStyles,
BuildJavaScripts and BuildBinary with empty target. If the Go resolution fails,
or it succeeds and the assets resolution fails, the reload logs that failure last
and returns with the queue unchanged. -/
theorem reload_enqueues_full_rebuild (env : Env) (s : Sys) (event : Event)
    (calls : List (TaskType × String)) (newConfig : ProjectConfig)
    (hname : event.Name = "project.toml")
    (hig : s.pw.ignoreDirs = NewProjectWatcher.ignoreDirs)
    (hc : event.Op &&& fsnotifyCreate ≠ fsnotifyCreate)
    (hr : event.Op &&& fsnotifyRemove ≠ fsnotifyRemove)
    (hw : event.Op &&& fsnotifyWrite = fsnotifyWrite)
    (hq : s.pw.tasks = (addTasks NewProjectWatcher calls).tasks)
    (hdec : env.decodeFile "project.toml" = some newConfig) :
    ∃ s', handleEvent env s event = some s' ∧
      ((updateGolangDeps env (swapConfig s newConfig)).2 = true →
        (updateAssetsDeps env (updateGolangDeps env (swapConfig s newConfig)).1).2 = true →
        s'.pw.tasks.Nodup ∧
        ∀ k ∈ [kTaskBuildImages, kTaskBuildStyles, kTaskBuildJavaScripts, kTaskBuildBinary],
          s'.pw.tasks.count (AppShellTask.mk k "") = 1) ∧
      ((updateGolangDeps env (swapConfig s newConfig)).2 = false →
        s'.pw.tasks = s.pw.tasks ∧
        s'.trace = (updateGolangDeps env (swapConfig s newConfig)).1.trace ++
          [Effect.log "Error" "Failed to load project Go dependencies, %v"]) ∧
      ((updateGolangDeps env (swapConfig s newConfig)).2 = true →
        (updateAssetsDeps env (updateGolangDeps env (swapConfig s newConfig)).1).2 = false →
        s'.pw.tasks = s.pw.tasks ∧
        s'.trace =
          (updateAssetsDeps env (updateGolangDeps env (swapConfig s newConfig)).1).1.trace ++
            [Effect.log "Error" "Failed to load project assets dependencies, %v"]) := by
  have hsuf : stringsHasSuffix "project.toml" ".go" = false := by decide
  have hign := projectToml_not_ignored env s.pw hig
  have h0 : ¬ ("project.toml" = "" ∨ isIgnoredDir env s.pw "project.toml" = true) := by
    rw [hign]; decide
  have hpw1 := (updateGolangDeps_frame env (swapConfig s newConfig)).1
  have hpw2 := (updateAssetsDeps_frame env (updateGolangDeps env (swapConfig s newConfig)).1).1
  have hswap : (swapConfig s newConfig).pw = s.pw := rfl
  refine ⟨updateConfig env s, ?_, ?_, ?_, ?_⟩
  · unfold handleEvent
    rw [hname, if_neg h0, if_neg hc, if_neg hr, if_pos hw]
    simp only [if_true, hsuf]
    rfl
  · intro hgo hnpm
    rw [updateConfig_success env s newConfig hdec hgo hnpm]
    obtain ⟨hs0, hn0, _⟩ := addTasks_invariant calls
    rw [← hq] at hs0 hn0
    obtain ⟨hs1, hn1, hm1⟩ := addTask_preserves s.pw kTaskBuildImages "" hs0 hn0
    obtain ⟨hs2, hn2, hm2⟩ := addTask_preserves _ kTaskBuildStyles "" hs1 hn1
    obtain ⟨hs3, hn3, hm3⟩ := addTask_preserves _ kTaskBuildJavaScripts "" hs2 hn2
    obtain ⟨_, hn4, hm4⟩ := addTask_preserves _ kTaskBuildBinary "" hs3 hn3
    refine ⟨hn4, ?_⟩
    intro k hk
    apply List.count_eq_one_of_mem hn4
    simp only [List.mem_cons, List.mem_singleton, List.not_mem_nil, or_false] at hk
    rw [hm4, hm3, hm2, hm1]
    rcases hk with h | h | h | h <;> subst h <;> simp
  · intro hgo
    rw [updateConfig_go_failure env s newConfig hdec hgo]
    refine ⟨?_, rfl⟩
    show (updateGolangDeps env (swapConfig s newConfig)).1.pw.tasks = s.pw.tasks
    rw [hpw1, hswap]
  · intro hgo hnpm
    rw [updateConfig_assets_failure env s newConfig hdec hgo hnpm]
    refine ⟨?_, rfl⟩
    show (updateAssetsDeps env (updateGolangDeps env (swapConfig s newConfig)).1).1.pw.tasks =
      s.pw.tasks
    rw [hpw2, hpw1, hswap]

/-- Witness of C6 as amended, on a queue that already holds a project-wide
BuildBinary: a reload with one Go and one npm dependency that both resolve gives
one of each task; the same reload with `npm` failing leaves the queue as it was. -/
theorem reload_enqueues_full_rebuild_witness :
    (∃ s', handleEvent reloadEnv
        { freshSys with pw := addTasks NewProjectWatcher [(kTaskBuildBinary, "")] }
        (Event.mk "project.toml" fsnotifyWrite) = some s' ∧
      s'.pw.tasks.Nodup ∧
      ∀ k ∈ [kTaskBuildImages, kTaskBuildStyles, kTaskBuildJavaScripts, kTaskBuildBinary],
        s'.pw.tasks.count (AppShellTask.mk k "") = 1) ∧
    (∃ s', handleEvent brokenNpmEnv
        { freshSys with pw := addTasks NewProjectWatcher [(kTaskBuildBinary, "")] }
        (Event.mk "project.toml" fsnotifyWrite) = some s' ∧
      s'.pw.tasks = [AppShellTask.mk kTaskBuildBinary ""]) := by
  constructor
  · obtain ⟨s', h, hok, _, _⟩ := reload_enqueues_full_rebuild reloadEnv
      { freshSys with pw := addTasks NewProjectWatcher [(kTaskBuildBinary, "")] }
      (Event.mk "project.toml" fsnotifyWrite) [(kTaskBuildBinary, "")]
      { Package := some { Dependencies := ["github.com/x/y"], OmitTests := [] },
        Assets := some { Dependencies := ["react"] }, Distribution := none }
      rfl rfl (by decide) (by decide) (by decide) rfl rfl
    obtain ⟨hn, hcount⟩ := hok (by decide) (by decide)
    exact ⟨s', h, hn, hcount⟩
  · obtain ⟨s', h, _, _, hnpm⟩ := reload_enqueues_full_rebuild brokenNpmEnv
      { freshSys with pw := addTasks NewProjectWatcher [(kTaskBuildBinary, "")] }
      (Event.mk "project.toml" fsnotifyWrite) [(kTaskBuildBinary, "")]
      { Package := some { Dependencies := ["github.com/x/y"], OmitTests := [] },
        Assets := some { Dependencies := ["react"] }, Distribution := none }
      rfl rfl (by decide) (by decide) (by decide) rfl rfl
    exact ⟨s', h, (hnpm (by decide) (by decide)).1⟩

/-- Counterexample to C6 as stated: `project.toml` parses, `go get` fails, and the
reload returns before any task is enqueued; the queue stays empty. -/
theorem reload_with_failed_deps_enqueues_nothing :
    brokenDepsEnv.decodeFile "project.toml" =
      some { Package := some { Dependencies := ["github.com/x/y"], OmitTests := [] },
             Assets := none, Distribution := none } ∧
    freshSys.pw.tasks = (addTasks NewProjectWatcher []).tasks ∧
    (handleEvent brokenDepsEnv freshSys (Event.mk "project.toml" fsnotifyWrite)).map
      (fun s' => s'.pw.tasks) = some [] ∧
    (handleEvent brokenDepsEnv freshSys (Event.mk "project.toml" fsnotifyWrite)).map
      (fun s' => s'.pw.tasks.count (AppShellTask.mk kTaskBuildBinary "")) = some 0 := by
  refine ⟨rfl, rfl, ?_, ?_⟩ <;> decide

/-! ## Writes to Go sources -/

/-- When every walked entry comes with its file info, the walk of `hasGoTests`
finishes without an error, and `has` ends up true exactly when it started true
or some entry counts as a test. -/
theorem filepathWalk_hasGoTestsFn (ignoreTests : List String) :
    ∀ (entries : List WalkEntry) (has : Bool), (∀ e ∈ entries, e.info ≠ none) →
      ∃ b, filepathWalk (hasGoTestsFn ignoreTests) entries has = some (b, true) ∧
        (b = true ↔ has = true ∨ ∃ e ∈ entries, countsAsTest ignoreTests e) := by
  intro entries
  induction entries with
  | nil => intro has _; exact ⟨has, rfl, by simp⟩
  | cons e rest ih =>
    intro has hinfo
    have hrest : ∀ x ∈ rest, x.info ≠ none := fun x hx => hinfo x (List.mem_cons_of_mem _ hx)
    have he := hinfo e (List.mem_cons_self _ _)
    by_cases hom : e.fname ∈ ignoreTests
    · have hfn : hasGoTestsFn ignoreTests has e = some (has, true) := by
        simp [hasGoTestsFn, hom]
      obtain ⟨b, hb, hiff⟩ := ih has hrest
      refine ⟨b, by simp [filepathWalk, hfn, hb], ?_⟩
      rw [hiff]
      simp [countsAsTest, hom]
    · rcases hi : e.info with _ | info
      · exact absurd hi he
      · rcases info with ⟨isDir⟩
        by_cases hcount : isDir = false ∧ stringsHasSuffix e.fname "_test.go" = true
        · have hfn : hasGoTestsFn ignoreTests has e = some (true, true) := by
            simp [hasGoTestsFn, hom, hi, hcount.1, hcount.2]
          obtain ⟨b, hb, hiff⟩ := ih true hrest
          refine ⟨b, by simp [filepathWalk, hfn, hb], ?_⟩
          rw [hiff]
          have : countsAsTest ignoreTests e := ⟨hom, by rw [hi, hcount.1], hcount.2⟩
          simp [this]
        · have hfn : hasGoTestsFn ignoreTests has e = some (has, true) := by
            unfold hasGoTestsFn
            rw [if_neg hom, hi]
            by_cases hd : isDir = true
            · simp [hd]
            · have hd' : isDir = false := by simpa using hd
              have hs : ¬ stringsHasSuffix e.fname "_test.go" = true := fun h =>
                hcount ⟨hd', h⟩
              simp [hd', hs]
          obtain ⟨b, hb, hiff⟩ := ih has hrest
          refine ⟨b, by simp [filepathWalk, hfn, hb], ?_⟩
          rw [hiff]
          have : ¬ countsAsTest ignoreTests e := by
            rintro ⟨_, h2, h3⟩
            rw [hi] at h2
            exact hcount ⟨by simpa using h2, h3⟩
          simp [this]

theorem hasGoTests_spec (env : Env) (s : Sys) (module : String) (pkg : PackageConfig)
    (hpkg : s.rootConfig.Package = some pkg)
    (hinfo : ∀ e ∈ env.walk module, e.info ≠ none) :
    ∃ b, hasGoTests env s module = some b ∧
      (b = true ↔ ∃ e ∈ env.walk module, countsAsTest pkg.OmitTests e) := by
  obtain ⟨b, hb, hiff⟩ := filepathWalk_hasGoTestsFn pkg.OmitTests (env.walk module) false hinfo
  refine ⟨b, ?_, by simpa using hiff⟩
  unfold hasGoTests
  rw [hpkg]
  simp [hb]

theorem go_suffix_ne_projectToml (name : String)
    (hsuf : stringsHasSuffix name ".go" = true) : name ≠ "project.toml" := by
  intro h
  subst h
  exact absurd hsuf (by decide)

/-- Where `hasGoTests` returns (a package section is present and the walk reports
file info for every entry), a write to a non-ignored `.go` path taken into the
write branch on an empty queue, with `dir = path.Dir(path)`, leaves a queue that
holds `BuildBinary{dir}`, holds `BinaryTest{dir}` exactly when some walked
non-directory entry under `dir` ends in `_test.go` and is not an element of
`OmitTests`, and holds nothing else. -/
theorem go_write_enqueues_build_and_test (env : Env) (s : Sys) (event : Event)
    (pkg : PackageConfig)
    (hne : event.Name ≠ "")
    (hign : isIgnoredDir env s.pw event.Name = false)
    (hsuf : stringsHasSuffix event.Name ".go" = true)
    (hc : event.Op &&& fsnotifyCreate ≠ fsnotifyCreate)
    (hr : event.Op &&& fsnotifyRemove ≠ fsnotifyRemove)
    (hw : event.Op &&& fsnotifyWrite = fsnotifyWrite)
    (hq : s.pw.tasks = [])
    (hpkg : s.rootConfig.Package = some pkg)
    (hinfo : ∀ e ∈ env.walk (pathDir event.Name), e.info ≠ none) :
    ∃ s', handleEvent env s event = some s' ∧
      AppShellTask.mk kTaskBuildBinary (pathDir event.Name) ∈ s'.pw.tasks ∧
      (AppShellTask.mk kTaskBinaryTest (pathDir event.Name) ∈ s'.pw.tasks ↔
        ∃ e ∈ env.walk (pathDir event.Name), countsAsTest pkg.OmitTests e) ∧
      (∀ t ∈ s'.pw.tasks, t = AppShellTask.mk kTaskBuildBinary (pathDir event.Name) ∨
        t = AppShellTask.mk kTaskBinaryTest (pathDir event.Name)) := by
  obtain ⟨b, hb, hiff⟩ := hasGoTests_spec env s (pathDir event.Name) pkg hpkg hinfo
  have h0 : ¬ (event.Name = "" ∨ isIgnoredDir env s.pw event.Name = true) := by
    rw [hign]; simp [hne]
  have hnt := go_suffix_ne_projectToml event.Name hsuf
  have hkinds : kTaskBuildBinary ≠ kTaskBinaryTest := by decide
  have hev : handleEvent env s event =
      some { s with pw := addTask (if b = true then addTask s.pw kTaskBinaryTest
        (pathDir event.Name) else s.pw) kTaskBuildBinary (pathDir event.Name) } := by
    unfold handleEvent
    rw [if_neg h0, if_neg hc, if_neg hr, if_pos hw]
    simp only [if_neg hnt, hsuf, if_true, hb]
  refine ⟨_, hev, ?_⟩
  simp only [addTask_tasks]
  cases b with
  | true =>
    have hex : ∃ e ∈ env.walk (pathDir event.Name), countsAsTest pkg.OmitTests e :=
      hiff.mp rfl
    simp only [if_true, addTask_tasks, hq, mem_insertTask]
    refine ⟨Or.inl trivial, ?_, ?_⟩
    · simp [hex, insertTask]
    · intro t ht
      rcases ht with h | h | h
      · exact Or.inl h
      · exact Or.inr h
      · simp at h
  | false =>
    have hex : ¬ ∃ e ∈ env.walk (pathDir event.Name), countsAsTest pkg.OmitTests e :=
      fun h => by simpa using hiff.mpr h
    simp only [Bool.false_eq_true, if_false, hq, mem_insertTask]
    refine ⟨Or.inl trivial, ?_, ?_⟩
    · simp only [iff_false_intro hex, iff_false]
      intro h
      rcases h with h | h
      · exact hkinds (AppShellTask.mk.inj h).1.symm
      · simp at h
    · intro t ht
      rcases ht with h | h
      · exact Or.inl h
      · simp at h

/-- The two runs of the design document: a write to `foo/bar.go` with
`foo/bar_test.go` next to it yields BuildBinary and BinaryTest for `foo`; with
`foo/bar_test.go` in the omit list it yields BuildBinary only. -/
theorem go_write_enqueues_build_and_test_witness :
    (∃ s', handleEvent fooEnv freshSys (Event.mk "foo/bar.go" fsnotifyWrite) = some s' ∧
      AppShellTask.mk kTaskBuildBinary "foo" ∈ s'.pw.tasks ∧
      (AppShellTask.mk kTaskBinaryTest "foo" ∈ s'.pw.tasks ↔
        ∃ e ∈ fooEnv.walk "foo", countsAsTest [] e) ∧
      (∀ t ∈ s'.pw.tasks, t = AppShellTask.mk kTaskBuildBinary "foo" ∨
        t = AppShellTask.mk kTaskBinaryTest "foo")) ∧
    (handleEvent fooEnv freshSys (Event.mk "foo/bar.go" fsnotifyWrite)).map
      (fun s' => s'.pw.tasks) =
      some [AppShellTask.mk kTaskBuildBinary "foo", AppShellTask.mk kTaskBinaryTest "foo"] ∧
    (handleEvent fooEnv omitSys (Event.mk "foo/bar.go" fsnotifyWrite)).map
      (fun s' => s'.pw.tasks) = some [AppShellTask.mk kTaskBuildBinary "foo"] :=
  ⟨go_write_enqueues_build_and_test fooEnv freshSys (Event.mk "foo/bar.go" fsnotifyWrite)
      { Dependencies := [], OmitTests := [] }
      (by decide) (by decide) (by decide) (by decide) (by decide) (by decide) rfl rfl
      (by decide),
   by decide, by decide⟩

/-- C5 on the code: a write to `main.go`, a non-empty, not ignored path ending in
`.go`, on an empty queue, with `main_test.go` next to it and not omitted. With a
package section the queue gets `BuildBinary{.}` and `BinaryTest{.}`. Without a
package section, or when the walk of `.` reports an `Lstat` error with a nil
file info, the handler panics in `hasGoTests` and `BuildBinary{.}` is never
enqueued. -/
theorem go_write_without_package_loses_build_task :
    "main.go" ≠ "" ∧
    isIgnoredDir rootEnv NewProjectWatcher "main.go" = false ∧
    stringsHasSuffix "main.go" ".go" = true ∧
    pathDir "main.go" = "." ∧
    noPackageSys.pw.tasks = [] ∧
    (handleEvent rootEnv freshSys (Event.mk "main.go" fsnotifyWrite)).map
      (fun s' => s'.pw.tasks) =
      some [AppShellTask.mk kTaskBuildBinary ".", AppShellTask.mk kTaskBinaryTest "."] ∧
    handleEvent rootEnv noPackageSys (Event.mk "main.go" fsnotifyWrite) = none ∧
    handleEvent vanishedEnv freshSys (Event.mk "main.go" fsnotifyWrite) = none := by
  refine ⟨by decide, by decide, by decide, by decide, rfl, ?_, ?_, ?_⟩ <;> decide

/-! ## Removal events -/

/-- C9 on the code: a removal event for a directory that is gone (`os.Stat`
fails) changes nothing, so the path stays registered. Shown for every such
event, and on the watcher that observes `foo`. -/
theorem remove_of_vanished_directory_keeps_watch :
    (∀ (env : Env) (s : Sys) (event : Event),
      env.stat event.Name = none →
      event.Op &&& fsnotifyRemove = fsnotifyRemove →
      handleEvent env s event = some s) ∧
    quietEnv.stat "foo" = none ∧
    isIgnoredDir quietEnv watchingFooSys.pw "foo" = false ∧
    handleEvent quietEnv watchingFooSys (Event.mk "foo" fsnotifyRemove) =
      some watchingFooSys ∧
    "foo" ∈ watchingFooSys.pw.watcher := by
  refine ⟨?_, rfl, by decide, by decide, by decide⟩
  intro env s event hstat hrem
  unfold handleEvent
  rw [hstat]
  split
  · rfl
  · split
    · rfl
    · rfl

/-! ## Totality of the `.go` write path -/

/-- C10 on the code: a write to `foo/bar.go` panics in `hasGoTests` when the
configuration has no package section (a configuration on which
`updateGolangDeps` returns without an error), and when the walk reports an
`Lstat` error with a nil file info; no task is enqueued in either case. -/
theorem go_write_panics_without_package_or_info :
    hasGoTests fooEnv noPackageSys "foo" = none ∧
    handleEvent fooEnv noPackageSys (Event.mk "foo/bar.go" fsnotifyWrite) = none ∧
    updateGolangDeps fooEnv noPackageSys = (noPackageSys, true) ∧
    hasGoTests vanishedEnv freshSys "foo" = none ∧
    handleEvent vanishedEnv freshSys (Event.mk "foo/bar.go" fsnotifyWrite) = none := by
  refine ⟨rfl, ?_, rfl, ?_, ?_⟩ <;> decide

end Gobuildweb
